import Mathlib

/-!
Verification of the CI-record reconciliation scripts (DRPlanAnalyzer and the
CSV differ) against their natural-language specification.  The Python source
is shallowly embedded: pandas string cells become `String`, nullable cells
become `Option String` (with `pyStr` mirroring `astype(str)` which renders a
missing value as "nan"), row iteration becomes list traversal, and the pandas
groupby/filter pipeline becomes explicit filtering over lists of records.
-/

namespace Spec2Proof

/-- Python `in` on strings, at the character-list level. -/
def containsList (hay needle : List Char) : Bool :=
  hay.tails.any (fun t => needle.isPrefixOf t)

/-- Python substring test `needle in hay`. -/
def pyContains (hay needle : String) : Bool :=
  containsList hay.toList needle.toList

/-- Strip leading whitespace, char-list level. -/
def lstripList (l : List Char) : List Char := l.dropWhile Char.isWhitespace

/-- Strip trailing whitespace, char-list level. -/
def rstripList (l : List Char) : List Char :=
  ((l.reverse.dropWhile Char.isWhitespace)).reverse

/-- Python str.strip at the char-list level. -/
def stripList (l : List Char) : List Char := rstripList (lstripList l)

/-- Python str.strip (surrounding-whitespace trim). -/
def pyStrip (s : String) : String := String.mk (stripList s.toList)

/-- Split a char list at the first occurrence of a separator:
the part before it and the part after it (Python split(sep, 1)). -/
def breakAt (sep : Char) : List Char → List Char × List Char
  | [] => ([], [])
  | c :: cs =>
    if c = sep then ([], cs)
    else
      let p := breakAt sep cs
      (c :: p.1, p.2)

/-- Python s.split(sep, 1) when the separator occurs: the two parts. -/
def pySplit1 (sep : Char) (s : String) : String × String :=
  let p := breakAt sep s.toList
  (String.mk p.1, String.mk p.2)

/-- pandas astype(str): a missing value (NaN) renders as "nan". -/
def pyStr (o : Option String) : String :=
  match o with
  | none => "nan"
  | some s => s

/-- Python str.upper on the character list (ASCII case mapping). -/
def pyToUpper (s : String) : String := String.mk (s.toList.map Char.toUpper)

/-- Python str.lower on the character list (ASCII case mapping). -/
def pyToLower (s : String) : String := String.mk (s.toList.map Char.toLower)

/-- First-seen deduplication, the order pandas unique() reports values in. -/
def ufsAux [BEq α] (seen : List α) : List α → List α
  | [] => []
  | x :: xs => if seen.contains x then ufsAux seen xs else x :: ufsAux (x :: seen) xs

/-- pandas Series.unique(): distinct values in first-seen order. -/
def ufs [BEq α] (l : List α) : List α := ufsAux [] l

/-- pandas Series.nunique over already-extracted (non-null) values. -/
def nunique [BEq α] (l : List α) : Nat := (ufs l).length

end Spec2Proof

namespace Spec2Proof

/-! ## Name Decomposer (claim C1)

src/unnamed/part_000 lines 86-106, DRPlanAnalyzer.extract_device_info:
null input yields (None, None); otherwise the name is stripped and, when it
contains a colon, split once on it with both parts stripped, else the prefix
is None and the stripped name is the core. -/

def extract_device_info (device_name : Option String) : Option String × Option String :=
  match device_name with
  | none => (none, none)
  | some s =>
    let t := pyStrip s
    if pyContains t ":" then
      let p := pySplit1 ':' t
      (some (pyStrip p.1), some (pyStrip p.2))
    else
      (none, some t)

/-- src/cla3oct19.py lines 76-84, the vectorized extract_device_info:
actual_device_name starts as the raw name and is only replaced (by the
stripped part after the first colon) on rows whose name contains a colon. -/
def extractDeviceInfoCla3 (name : String) : Option String × String :=
  if pyContains name ":" then
    let p := pySplit1 ':' name
    (some (pyStrip p.1), pyStrip p.2)
  else
    (none, name)

/-- Python s.split(sep) (the full split, at the char-list level); the
accumulator holds the current segment reversed.  Splitting never yields an
empty list of parts. -/
def splitAllAux (sep : Char) : List Char → List Char → List (List Char)
  | [], acc => [acc.reverse]
  | c :: cs, acc =>
    if c = sep then acc.reverse :: splitAllAux sep cs []
    else splitAllAux sep cs (c :: acc)

/-- Python sep.join(parts) at the char-list level. -/
def joinSep (sep : Char) : List (List Char) → List Char
  | [] => []
  | [x] => x
  | x :: y :: ys => x ++ sep :: joinSep sep (y :: ys)

/-- src/p.py lines 37-39 (analyze_servicenow_data): name_prefix is
astype(str).split(':')[0].strip() and device_core_name is
':'.join(astype(str).split(':')[1:]).strip().  There is no optional prefix:
a name without a colon makes the whole (stripped) name the prefix and the
empty string the core, and a missing name is stringified to 'nan' first. -/
def extractDeviceInfoP (deviceName : Option String) : String × String :=
  let parts := splitAllAux ':' (pyStr deviceName).toList []
  (pyStrip (String.mk (parts.headD [])),
   pyStrip (String.mk (joinSep ':' (parts.drop 1))))

end Spec2Proof

namespace Spec2Proof

/-! ## Attribute-Loss Risk Analyzer (claims C4, C10)

src/cla3oct19.py lines 836-875, DRPlanAnalyzer.analyze_attribute_transfer_risk:
per non-authoritative (mismatch) record, each critical attribute is compared
against the authoritative (correct) record; a value is considered present when
it is non-null and non-blank after strip. -/

/-- pd.notna(v) and str(v).strip() != '' for a nullable cell. -/
def hasVal (o : Option String) : Bool :=
  match o with
  | none => false
  | some s => pyStrip s ≠ ""

/-- The transfer_needed and transfer_conflict entry lists accumulated over the
critical attributes (attribute name kept with the offending values). -/
def transferLists (attrs : List String) (mGet cGet : String → Option String) :
    List (String × String) × List (String × String × String) :=
  attrs.foldl
    (fun acc attr =>
      let mval := mGet attr
      let cval := cGet attr
      if hasVal mval && !hasVal cval then
        (acc.1 ++ [(attr, pyStr mval)], acc.2)
      else if hasVal mval && hasVal cval && pyStr mval != pyStr cval then
        (acc.1, acc.2 ++ [(attr, pyStr mval, pyStr cval)])
      else acc)
    ([], [])

/-- The risk_level if/elif chain of analyze_attribute_transfer_risk, applied
to the accumulated transfer_needed and transfer_conflict lists (Python list
truthiness = non-emptiness). -/
def riskLevel (tn : List (String × String)) (tc : List (String × String × String)) : String :=
  if tn ≠ [] ∧ tc = [] then "Transfer Needed"
  else if tc ≠ [] then "Conflict - Data Loss"
  else if tn ≠ [] ∧ tc ≠ [] then "Partial Transfer with Conflict"
  else "None"

/-- One mismatch CI analyzed against the correct CI: the two entry lists and
the assigned risk level. -/
def analyzeMismatchCI (attrs : List String) (mGet cGet : String → Option String) :
    List (String × String) × List (String × String × String) × String :=
  let p := transferLists attrs mGet cGet
  (p.1, p.2, riskLevel p.1 p.2)

/-- The fixed critical-attribute list (src/cla3oct19.py line 611). -/
def critical_attributes : List String :=
  ["dr_device", "global_load_balancer", "nas", "comments", "failover_strategy"]

end Spec2Proof

namespace Spec2Proof

/-! ## Normalized records and the duplicate analyses (claims C2, C7)

One row of the normalized DRPlanAnalyzer table (src/cla3oct19.py): the
required columns name/type/plan as strings, the optional columns as nullable
cells, plus the two fields derived by extract_device_info. -/

structure Rec3 where
  plan : String
  name : String
  actualName : String
  ciType : String
  pfx : Option String
  serial : Option String
  manual : Option String
  env : Option String
deriving DecidableEq, Repr

/-- notna(serial) and serial != '' (the filter of analyses 2, 3, 5, 6). -/
def hasSerial (r : Rec3) : Bool :=
  match r.serial with
  | none => false
  | some s => s != ""

/-- A finding row emitted by analysis_1_name_type_duplicates (the fields the
claims are about). -/
structure Finding1 where
  plan : String
  deviceName : String
  ciType : String
  fullName : String
  dupCount : Nat
  dupType : String
deriving DecidableEq, Repr

/-- The duplicate-type decision of analysis_1 (src/cla3oct19.py lines 103-116):
full-name identity first, then prefix disagreement, else the residual class.
nunique ignores nulls, hence the filterMap for the prefixes. -/
def classify1 (g : List Rec3) : String :=
  let uniqueFullNames := nunique (g.map (fun r => r.name))
  let uniquePrefixes := nunique (g.filterMap (fun r => r.pfx))
  if uniqueFullNames = 1 then "Exact Duplicate"
  else if uniquePrefixes > 1 then "Mismatch Duplicate"
  else "Other Duplicate"

/-- analysis_1_name_type_duplicates (src/cla3oct19.py lines 86-146): per plan,
group by (actual_device_name, type); each group of size > 1 emits one finding
per member, every one carrying the group size as Duplicate Count. -/
def analysis1 (data : List Rec3) : List Finding1 :=
  (ufs (data.map (fun r => r.plan))).flatMap (fun p =>
    let planData := data.filter (fun r => r.plan == p)
    (ufs (planData.map (fun r => (r.actualName, r.ciType)))).flatMap (fun key =>
      let g := planData.filter (fun r => r.actualName == key.1 && r.ciType == key.2)
      if g.length > 1 then
        g.map (fun r =>
          { plan := p, deviceName := key.1, ciType := key.2, fullName := r.name,
            dupCount := g.length, dupType := classify1 g })
      else []))

/-- A finding row emitted by analysis_3_future_serial_duplicates. -/
structure Finding3 where
  plan : String
  serial : String
  nameCurrent : String
  nameFuture : String
  ciType : String
  dupCount : Nat
  dupType : String
deriving DecidableEq, Repr

/-- The duplicate-type decision of analysis_3 (src/cla3oct19.py lines 265-277):
exact only when both the types and the actual names agree; any disagreement on
type is a Type Conflict; otherwise a Name Variation. -/
def classify3 (g : List Rec3) : String :=
  let uniqueTypes := nunique (g.map (fun r => r.ciType))
  let uniqueActualNames := nunique (g.map (fun r => r.actualName))
  if uniqueTypes = 1 ∧ uniqueActualNames = 1 then "Exact Duplicate"
  else if uniqueTypes > 1 then "Type Conflict"
  else "Name Variation"

/-- analysis_3_future_serial_duplicates (src/cla3oct19.py lines 241-295):
records with a non-empty serial, grouped per plan by serial number alone;
each group of size > 1 is classified by classify3 and emits one finding per
member carrying the group size. -/
def analysis3 (data : List Rec3) : List Finding3 :=
  let ds := data.filter hasSerial
  (ufs (ds.map (fun r => r.plan))).flatMap (fun p =>
    let planData := ds.filter (fun r => r.plan == p)
    (ufs (planData.map (fun r => pyStr r.serial))).flatMap (fun s =>
      let g := planData.filter (fun r => pyStr r.serial == s)
      if g.length > 1 then
        g.map (fun r =>
          { plan := p, serial := s, nameCurrent := r.name, nameFuture := r.actualName,
            ciType := r.ciType, dupCount := g.length, dupType := classify3 g })
      else []))

/-- The serial-keyed comparison group for a plan and serial value: the records
of the dataset with a non-empty serial, that plan and that serial. -/
def serialGroup (data : List Rec3) (p s : String) : List Rec3 :=
  (data.filter hasSerial).filter (fun r => r.plan == p && pyStr r.serial == s)

/-- The (plan, actual name, type) comparison group of analysis_1. -/
def nameTypeGroup (data : List Rec3) (p n t : String) : List Rec3 :=
  data.filter (fun r => r.plan == p && (r.actualName == n && r.ciType == t))

end Spec2Proof

namespace Spec2Proof

/-! ## Policy Violation Detector (claim C5)

src/cla2oct19.py lines 206-242 (analysis_4_manual_non_production) and
src/unnamed/part_000 lines 268-301 (analyze_manual_nonprod_entries). -/

/-- cla2oct19: manual_entry.astype(str).str.upper() in ['TRUE','T','1','YES']. -/
def cla2IsManual (m : Option String) : Bool :=
  ["TRUE", "T", "1", "YES"].contains (pyToUpper (pyStr m))

/-- cla2oct19: the environment filter keeps rows whose upper-cased environment
string does not contain 'PROD'. -/
def cla2IsNonProd (env : Option String) : Bool :=
  !(pyContains (pyToUpper (pyStr env)) "PROD")

/-- cla2oct19: a record reported by analysis_4. -/
def cla2IsViolation (m env : Option String) : Bool :=
  cla2IsManual m && cla2IsNonProd env

/-- analysis_4_manual_non_production as the two successive row filters of the
source: first the truthy manual entries, then the non-production ones; it
emits one finding per surviving row. -/
def analysis4cla2 (data : List Rec3) : List Rec3 :=
  (data.filter (fun r => cla2IsManual r.manual)).filter (fun r => cla2IsNonProd r.env)

/-- part_000: manual_entry.astype(str).str.lower() in ['true','1','yes','t']. -/
def p0IsManual (m : Option String) : Bool :=
  ["true", "1", "yes", "t"].contains (pyToLower (pyStr m))

/-- part_000: pd.isna(env) or str(env).lower().strip() not in
['production','prod','prd'] (exact-token production test). -/
def p0IsNonProd (env : Option String) : Bool :=
  match env with
  | none => true
  | some e => !(["production", "prod", "prd"].contains (pyStrip (pyToLower e)))

/-- part_000: a record flagged by analyze_manual_nonprod_entries. -/
def p0IsViolation (m env : Option String) : Bool :=
  p0IsManual m && p0IsNonProd env

/-- Modelled from the spec's words, for comparison with the code: a record
violates policy when its manual-entry value is case-insensitively one of
true/1/yes/t and its environment is absent, empty, or not recognized as
production by the case-insensitive substring test on "prod". -/
def claimedViolation (m env : Option String) : Bool :=
  (match m with
   | none => false
   | some s => ["TRUE", "T", "1", "YES"].contains (pyToUpper s))
  &&
  (match env with
   | none => true
   | some e => e == "" || !(pyContains (pyToUpper e) "PROD"))

end Spec2Proof

namespace Spec2Proof

/-! ## Column Normalizer type-column disambiguation (claim C3)

src/unnamed/part_000 lines 501-530, DRPlanAnalyzer._identify_type_column.
A table is modelled as its columns: (column name, cell values in row order),
a cell being nullable. -/

/-- The valid CI types list of part_000 (line 445). -/
def valid_ci_types : List String :=
  ["AIX Server", "Windows Server", "Unix Server", "Linux Server",
   "Server", "Database", "Application Server", "Web Server"]

/-- The scope tokens tested against each sampled value (line 508 area). -/
def scopeTokens : List String := ["primary scope", "related asset", "scope"]

/-- df[col].dropna().unique()[:20]: the first 20 distinct non-null values. -/
def sampleVals (vals : List (Option String)) : List String :=
  (ufs (vals.filterMap (fun v => v))).take 20

/-- How many sampled values contain some valid CI type, case-insensitively. -/
def ciTypeMatches (sample : List String) : Nat :=
  (sample.filter (fun v => valid_ci_types.any (fun t => pyContains (pyToLower v) (pyToLower t)))).length

/-- How many sampled values contain some scope token. -/
def scopeMatches (sample : List String) : Nat :=
  (sample.filter (fun v => scopeTokens.any (fun t => pyContains (pyToLower v) t))).length

/-- The candidate type columns: names containing 'type' case-insensitively. -/
def typeColumns (table : List (String × List (Option String))) : List String :=
  (table.map (fun c => c.1)).filter (fun c => pyContains (pyToLower c) "type")

/-- The values of a named column (first matching column of the table). -/
def colVals (table : List (String × List (Option String))) (col : String) :
    List (Option String) :=
  match table.find? (fun c => c.1 == col) with
  | some c => c.2
  | none => []

/-- A candidate column qualifies when its CI-type matches strictly exceed its
scope matches (the branch that assigns self.ci_type_column). -/
def colQualifies (table : List (String × List (Option String))) (col : String) : Bool :=
  ciTypeMatches (sampleVals (colVals table col)) > scopeMatches (sampleVals (colVals table col))

/-- _identify_type_column: iterate the candidates in order, each qualifying
candidate overwriting self.ci_type_column; if none is set at the end, fall
back to the first candidate, or the literal 'Type' when there is none. -/
def identifyTypeColumn (table : List (String × List (Option String))) : String :=
  let tcols := typeColumns table
  let selected := tcols.foldl
    (fun acc col => if colQualifies table col then some col else acc) none
  match selected with
  | some c => c
  | none =>
    match tcols with
    | c :: _ => c
    | [] => "Type"

/-- Modelled from the spec's words, for comparison with the code: the
positive-minus-negative content score of a candidate column. -/
def claimedScore (table : List (String × List (Option String))) (col : String) : Int :=
  (ciTypeMatches (sampleVals (colVals table col)) : Int)
    - (scopeMatches (sampleVals (colVals table col)) : Int)

/-- Modelled from the spec's words, for comparison with the code: the winner
is the candidate with the strictly higher score, ties resolving to the
first-encountered candidate. -/
def claimedWinner (table : List (String × List (Option String))) : Option String :=
  (typeColumns table).foldl
    (fun acc col =>
      match acc with
      | none => some col
      | some best => if claimedScore table col > claimedScore table best then some col else acc)
    none

end Spec2Proof

namespace Spec2Proof

/-! ## Dataset Differ (claims C6, C8, C9)

src/p.py: create_row_dict (lines 254-270 and 657-666) and compare_csv_files
(the comparison core, lines 295-345).  A dataset is its header list plus its
rows of string cells. -/

/-- First index of an element (Python list.index for a present element). -/
def pyIndex [BEq α] (x : α) : List α → Nat
  | [] => 0
  | y :: ys => if y == x then 0 else pyIndex x ys + 1

/-- The key a row contributes under a key-column index: none when the row is
too short to hold the key column or the stripped key value is empty. -/
def effKey (keyIdx : Nat) (row : List String) : Option String :=
  if keyIdx < row.length then
    let v := pyStrip (row.getD keyIdx "")
    if v == "" then none else some v
  else none

/-- Python dict assignment d[k] = v on an insertion-ordered association list:
overwrite the value in place when the key exists, else append. -/
def upsert (m : List (String × α)) (k : String) (v : α) : List (String × α) :=
  if (m.map (fun p => p.1)).contains k then
    m.map (fun p => if p.1 == k then (p.1, v) else p)
  else m ++ [(k, v)]

/-- The dict/anomaly-list fold shared by both create_row_dict variants,
over rows already paired with their spreadsheet row numbers. -/
def rowDictFold (keyIdx : Nat) (l : List (Nat × List String))
    (acc : List (String × Nat × List String) × List (Nat × List String)) :
    List (String × Nat × List String) × List (Nat × List String) :=
  l.foldl
    (fun acc nr =>
      match effKey keyIdx nr.2 with
      | some k => (upsert acc.1 k nr, acc.2)
      | none => (acc.1, acc.2 ++ [nr]))
    acc

/-- create_row_dict of the PROD-vs-API comparison (src/p.py lines 254-270):
returns the key-to-row dict (row kept with its row number, numbering starting
at 2) and the separately tracked rows with empty or absent keys. -/
def create_row_dict (headers : List String) (rows : List (List String)) (keyCol : String) :
    List (String × Nat × List String) × List (Nat × List String) :=
  rowDictFold (pyIndex keyCol headers) (List.enumFrom 2 rows) ([], [])

/-- create_row_dict of the v2 csv-columns script (src/p.py lines 657-666):
returns only the dict; rows with empty or absent keys are skipped. -/
def create_row_dict_v2 (headers : List String) (rows : List (List String)) (keyCol : String) :
    List (String × List String) :=
  rows.foldl
    (fun m row =>
      match effKey (pyIndex keyCol headers) row with
      | some k => upsert m k row
      | none => m)
    []

/-- A dataset handed to the differ. -/
structure Dataset where
  headers : List String
  rows : List (List String)
deriving DecidableEq, Repr

/-- The row stored for a key (the comparison only reads keys present in the
dict, for which find? succeeds). -/
def lookupRow (m : List (String × Nat × List String)) (k : String) : List String :=
  match m.find? (fun p => p.1 == k) with
  | some p => p.2.2
  | none => []

/-- row[headers.index(col)].strip() if the row is long enough, else ''. -/
def getVal (headers : List String) (row : List String) (col : String) : String :=
  let i := pyIndex col headers
  if i < row.length then pyStrip (row.getD i "") else ""

/-- One value-difference finding of compare_csv_files. -/
structure DiffFinding where
  key : String
  column : String
  prodValue : String
  apiValue : String
  issue : String
deriving DecidableEq, Repr

/-- The outputs of the comparison core the claims are about. -/
structure CompareResult where
  missingKeys : List String
  extraKeys : List String
  commonKeys : List String
  diffs : List DiffFinding
deriving DecidableEq, Repr

/-- The deduplicated non-empty keys of a dataset: the keys of its row dict
(set(prod_dict.keys()), in insertion order). -/
def dictKeys (d : Dataset) (keyCol : String) : List String :=
  (create_row_dict d.headers d.rows keyCol).1.map (fun p => p.1)

/-- missing_from_api = prod_keys - api_keys (keys of the reference absent
from the comparison). -/
def missingFromApi (prod api : Dataset) (keyCol : String) : List String :=
  (dictKeys prod keyCol).filter (fun k => !((dictKeys api keyCol).contains k))

/-- extra_in_api_keys = api_keys - prod_keys. -/
def extraInApi (prod api : Dataset) (keyCol : String) : List String :=
  (dictKeys api keyCol).filter (fun k => !((dictKeys prod keyCol).contains k))

/-- common_keys = prod_keys & api_keys. -/
def commonKeysOf (prod api : Dataset) (keyCol : String) : List String :=
  (dictKeys prod keyCol).filter (fun k => (dictKeys api keyCol).contains k)

/-- common_columns = prod columns & api columns. -/
def commonColumns (prod api : Dataset) : List String :=
  prod.headers.filter (fun c => api.headers.contains c)

/-- value_differences: per common key and common non-key column, a finding
whenever the stripped values differ — 'Missing' when the comparison (api)
value is empty and the reference (prod) value is not, else 'Different'. -/
def valueDifferences (prod api : Dataset) (keyCol : String) : List DiffFinding :=
  (commonKeysOf prod api keyCol).flatMap (fun k =>
    ((commonColumns prod api).filter (fun c => c != keyCol)).filterMap (fun c =>
      let pv := getVal prod.headers (lookupRow (create_row_dict prod.headers prod.rows keyCol).1 k) c
      let av := getVal api.headers (lookupRow (create_row_dict api.headers api.rows keyCol).1 k) c
      if av != pv then
        some { key := k, column := c, prodValue := pv, apiValue := av,
               issue := if av == "" && pv != "" then "Missing" else "Different" }
      else none))

/-- The comparison core of compare_csv_files (src/p.py lines 295-345), with
the key column already established. -/
def compareDatasets (prod api : Dataset) (keyCol : String) : CompareResult :=
  { missingKeys := missingFromApi prod api keyCol,
    extraKeys := extraInApi prod api keyCol,
    commonKeys := commonKeysOf prod api keyCol,
    diffs := valueDifferences prod api keyCol }

end Spec2Proof

namespace Spec2Proof

/-! ## Helper lemmas -/

lemma contains_iff_mem [BEq α] [LawfulBEq α] (l : List α) (a : α) :
    l.contains a = true ↔ a ∈ l := by
  simp [List.contains, List.elem_iff]

lemma mem_ufsAux [BEq α] [LawfulBEq α] (a : α) (seen l : List α) :
    a ∈ ufsAux seen l ↔ a ∈ l ∧ a ∉ seen := by
  induction l generalizing seen with
  | nil => simp [ufsAux]
  | cons x xs ih =>
    unfold ufsAux
    by_cases hx : x ∈ seen
    · rw [if_pos ((contains_iff_mem seen x).mpr hx)]
      rw [ih]
      constructor
      · rintro ⟨h1, h2⟩
        exact ⟨List.mem_cons_of_mem _ h1, h2⟩
      · rintro ⟨h1, h2⟩
        rcases List.mem_cons.mp h1 with h | h
        · exact absurd (h ▸ hx) h2
        · exact ⟨h, h2⟩
    · rw [if_neg (fun hc => hx ((contains_iff_mem seen x).mp hc))]
      rw [List.mem_cons, ih]
      constructor
      · rintro (rfl | ⟨h1, h2⟩)
        · exact ⟨List.mem_cons_self _ _, hx⟩
        · refine ⟨List.mem_cons_of_mem _ h1, fun hs => h2 (List.mem_cons_of_mem _ hs)⟩
      · rintro ⟨h1, h2⟩
        by_cases hax : a = x
        · exact Or.inl hax
        · have h3 : a ∈ xs := by
            rcases List.mem_cons.mp h1 with h | h
            · exact absurd h hax
            · exact h
          refine Or.inr ⟨h3, fun hs => ?_⟩
          rcases List.mem_cons.mp hs with h | h
          · exact hax h
          · exact h2 h

lemma mem_ufs [BEq α] [LawfulBEq α] (a : α) (l : List α) : a ∈ ufs l ↔ a ∈ l := by
  rw [ufs, mem_ufsAux]
  simp

/-- The two successive filters of the grouped pipelines merged into the
one-pass group definition. -/
lemma filter_filter_comm (p q : α → Bool) (l : List α) :
    (l.filter p).filter q = l.filter (fun a => p a && q a) := by
  rw [List.filter_filter]
  exact List.filter_congr (fun a _ => Bool.and_comm _ _)

end Spec2Proof

namespace Spec2Proof

/-! ## Theorems: Attribute-Loss Risk Analyzer (claims C4, C10) -/

lemma riskLevel_eq_conflict (tn : List (String × String))
    (tc : List (String × String × String)) (h : tc ≠ []) :
    riskLevel tn tc = "Conflict - Data Loss" := by
  unfold riskLevel
  rw [if_neg (fun hc => h hc.2), if_pos h]

lemma riskLevel_eq_transfer_iff (tn : List (String × String))
    (tc : List (String × String × String)) :
    riskLevel tn tc = "Transfer Needed" ↔ tn ≠ [] ∧ tc = [] := by
  constructor
  · intro h
    by_contra hc
    unfold riskLevel at h
    rw [if_neg hc] at h
    by_cases h2 : tc ≠ []
    · rw [if_pos h2] at h
      exact absurd h (by decide)
    · rw [if_neg h2, if_neg (fun hx => h2 hx.2)] at h
      exact absurd h (by decide)
  · intro h
    unfold riskLevel
    rw [if_pos h]

/-- C4: for every non-authoritative (mismatch) record analyzed against the
authoritative record over any critical-attribute list, if any attribute has a
conflict entry (both values present and differing) the assigned aggregate risk
level is "Conflict - Data Loss", regardless of how many transfer-needed
entries exist; and the "Transfer Needed" level is assigned exactly when there
are transfer entries and no conflict entries. -/
theorem attribute_risk_conflict_dominates (attrs : List String)
    (mGet cGet : String → Option String) :
    ((analyzeMismatchCI attrs mGet cGet).2.1 ≠ [] →
      (analyzeMismatchCI attrs mGet cGet).2.2 = "Conflict - Data Loss") ∧
    ((analyzeMismatchCI attrs mGet cGet).2.2 = "Transfer Needed" ↔
      (analyzeMismatchCI attrs mGet cGet).1 ≠ [] ∧
        (analyzeMismatchCI attrs mGet cGet).2.1 = []) := by
  unfold analyzeMismatchCI
  exact ⟨riskLevel_eq_conflict _ _, riskLevel_eq_transfer_iff _ _⟩

/-- C10: the risk level "Partial Transfer with Conflict" is never assigned:
the elif that would assign it is tested only after the plain conflict branch
has already captured every record with a conflict entry. -/
theorem partial_transfer_with_conflict_unreachable (attrs : List String)
    (mGet cGet : String → Option String) :
    (analyzeMismatchCI attrs mGet cGet).2.2 ≠ "Partial Transfer with Conflict" := by
  unfold analyzeMismatchCI
  set tn := (transferLists attrs mGet cGet).1
  set tc := (transferLists attrs mGet cGet).2
  show riskLevel tn tc ≠ _
  unfold riskLevel
  by_cases h1 : tn ≠ [] ∧ tc = []
  · rw [if_pos h1]; decide
  · rw [if_neg h1]
    by_cases h2 : tc ≠ []
    · rw [if_pos h2]; decide
    · rw [if_neg h2, if_neg (fun hx => h2 hx.2)]
      decide

end Spec2Proof

namespace Spec2Proof

/-! ## Theorems: duplicate analyses (claims C2, C7) -/

lemma serialGroup_merge (data : List Rec3) (p s : String) :
    ((data.filter hasSerial).filter (fun r => r.plan == p)).filter
        (fun r => pyStr r.serial == s) = serialGroup data p s := by
  unfold serialGroup
  exact filter_filter_comm _ _ _

lemma nameTypeGroup_merge (data : List Rec3) (p n t : String) :
    (data.filter (fun r => r.plan == p)).filter
        (fun r => r.actualName == n && r.ciType == t) = nameTypeGroup data p n t := by
  unfold nameTypeGroup
  exact filter_filter_comm _ _ _

/-- Every finding of analysis_3 carries its own group's size as Duplicate
Count and its own group's classification as Duplicate Type, and comes from a
group of at least two records. -/
lemma analysis3_spec (data : List Rec3) (f : Finding3) (h : f ∈ analysis3 data) :
    1 < (serialGroup data f.plan f.serial).length ∧
    f.dupCount = (serialGroup data f.plan f.serial).length ∧
    f.dupType = classify3 (serialGroup data f.plan f.serial) := by
  simp only [analysis3, List.mem_flatMap] at h
  obtain ⟨p, hp, s, hs, hf⟩ := h
  split at hf
  case isTrue hlen =>
    rw [List.mem_map] at hf
    obtain ⟨r, hr, rfl⟩ := hf
    rw [serialGroup_merge] at hlen
    refine ⟨hlen, ?_, ?_⟩
    · show (((data.filter hasSerial).filter (fun r => r.plan == p)).filter
          (fun r => pyStr r.serial == s)).length = _
      rw [serialGroup_merge]
    · show classify3 (((data.filter hasSerial).filter (fun r => r.plan == p)).filter
          (fun r => pyStr r.serial == s)) = _
      rw [serialGroup_merge]
  case isFalse =>
    simp at hf

/-- A serial-keyed group of size at least two really is classified: some
finding is emitted for it, carrying the group's classification. -/
lemma analysis3_exists (data : List Rec3) (p s : String)
    (h : 1 < (serialGroup data p s).length) :
    ∃ f ∈ analysis3 data, f.plan = p ∧ f.serial = s ∧
      f.dupType = classify3 (serialGroup data p s) := by
  rw [← serialGroup_merge] at h
  have hne : ((data.filter hasSerial).filter (fun r => r.plan == p)).filter
      (fun r => pyStr r.serial == s) ≠ [] := by
    intro h0
    rw [h0] at h
    simp at h
  obtain ⟨r0, hr0⟩ := List.exists_mem_of_ne_nil _ hne
  have hr0g := hr0
  rw [List.mem_filter] at hr0g
  obtain ⟨hr0p, hr0s⟩ := hr0g
  have hr0pd := hr0p
  rw [List.mem_filter] at hr0pd
  obtain ⟨hr0ds, hr0pl⟩ := hr0pd
  have hpmem : p ∈ ufs ((data.filter hasSerial).map (fun r => r.plan)) := by
    rw [mem_ufs]
    exact List.mem_map.mpr ⟨r0, hr0ds, eq_of_beq hr0pl⟩
  have hsmem : s ∈ ufs (((data.filter hasSerial).filter (fun r => r.plan == p)).map
      (fun r => pyStr r.serial)) := by
    rw [mem_ufs]
    exact List.mem_map.mpr ⟨r0, hr0p, eq_of_beq hr0s⟩
  refine ⟨{ plan := p, serial := s, nameCurrent := r0.name, nameFuture := r0.actualName,
            ciType := r0.ciType,
            dupCount := (((data.filter hasSerial).filter (fun r => r.plan == p)).filter
              (fun r => pyStr r.serial == s)).length,
            dupType := classify3 (((data.filter hasSerial).filter (fun r => r.plan == p)).filter
              (fun r => pyStr r.serial == s)) }, ?_, rfl, rfl, ?_⟩
  · simp only [analysis3, List.mem_flatMap]
    refine ⟨p, hpmem, s, hsmem, ?_⟩
    rw [if_pos h]
    exact List.mem_map.mpr ⟨r0, hr0, rfl⟩
  · show classify3 _ = _
    rw [serialGroup_merge]

/-- Every finding of analysis_1 carries its own group's size as Duplicate
Count, and comes from a group of at least two records. -/
lemma analysis1_spec (data : List Rec3) (f : Finding1) (h : f ∈ analysis1 data) :
    1 < (nameTypeGroup data f.plan f.deviceName f.ciType).length ∧
    f.dupCount = (nameTypeGroup data f.plan f.deviceName f.ciType).length := by
  simp only [analysis1, List.mem_flatMap] at h
  obtain ⟨p, hp, key, hkey, hf⟩ := h
  split at hf
  case isTrue hlen =>
    rw [List.mem_map] at hf
    obtain ⟨r, hr, rfl⟩ := hf
    rw [nameTypeGroup_merge] at hlen
    refine ⟨hlen, ?_⟩
    show ((data.filter (fun r => r.plan == p)).filter
        (fun r => r.actualName == key.1 && r.ciType == key.2)).length = _
    rw [nameTypeGroup_merge]
  case isFalse =>
    simp at hf

/-- classify3 labels any group with more than one distinct type value a
Type Conflict: the exact-duplicate test requires a single type value and the
type test precedes the name-variation fallthrough. -/
lemma classify3_type_conflict (g : List Rec3)
    (h : 1 < nunique (g.map (fun r => r.ciType))) :
    classify3 g = "Type Conflict" := by
  simp only [classify3]
  rw [if_neg (fun hc => by omega), if_pos h]

/-- C2: for every serial-keyed comparison group (records of one plan sharing
one non-empty serial number) with at least two members, if the members
disagree on ci_type then the findings emitted for that group all carry the
"Type Conflict" duplicate type — type disagreement takes precedence over the
exact-duplicate and name-variation classifications — and at least one such
finding is emitted. -/
theorem serial_type_conflict_precedence (data : List Rec3) (p s : String)
    (hlen : 1 < (serialGroup data p s).length)
    (htypes : 1 < nunique ((serialGroup data p s).map (fun r => r.ciType))) :
    (∃ f ∈ analysis3 data, f.plan = p ∧ f.serial = s ∧ f.dupType = "Type Conflict") ∧
    ∀ f ∈ analysis3 data, f.plan = p → f.serial = s → f.dupType = "Type Conflict" := by
  constructor
  · obtain ⟨f, hf, hfp, hfs, hft⟩ := analysis3_exists data p s hlen
    exact ⟨f, hf, hfp, hfs, hft.trans (classify3_type_conflict _ htypes)⟩
  · intro f hf hfp hfs
    have hspec := (analysis3_spec data f hf).2.2
    rw [hfp, hfs] at hspec
    exact hspec.trans (classify3_type_conflict _ htypes)

/-- Witness for C2 at Scenario B: two records in plan P1 share serial SN123
with types Server and Database; the emitted findings are Type Conflict. -/
theorem serial_type_conflict_precedence_witness :
    ∃ f ∈ analysis3
        [{ plan := "P1", name := "Server: s1", actualName := "s1", ciType := "Server",
           pfx := some "Server", serial := some "SN123", manual := none, env := none },
         { plan := "P1", name := "DB: s1", actualName := "s1", ciType := "Database",
           pfx := some "DB", serial := some "SN123", manual := none, env := none }],
      f.plan = "P1" ∧ f.serial = "SN123" ∧ f.dupType = "Type Conflict" :=
  (serial_type_conflict_precedence
    [{ plan := "P1", name := "Server: s1", actualName := "s1", ciType := "Server",
       pfx := some "Server", serial := some "SN123", manual := none, env := none },
     { plan := "P1", name := "DB: s1", actualName := "s1", ciType := "Database",
       pfx := some "DB", serial := some "SN123", manual := none, env := none }]
    "P1" "SN123" (by decide) (by decide)).1

/-- C7: every per-record duplicate finding reports a Duplicate Count equal to
the number of records of the comparison group it derives from — for the
name/type-keyed analysis_1 and for the serial-keyed analysis_3 alike, the
count equals the number of records of the whole dataset sharing the finding's
grouping key. -/
theorem duplicate_count_eq_group_size (data : List Rec3) :
    (∀ f ∈ analysis1 data,
      f.dupCount = (nameTypeGroup data f.plan f.deviceName f.ciType).length) ∧
    (∀ f ∈ analysis3 data,
      f.dupCount = (serialGroup data f.plan f.serial).length) := by
  constructor
  · intro f hf
    exact (analysis1_spec data f hf).2
  · intro f hf
    exact (analysis3_spec data f hf).2.1

end Spec2Proof

namespace Spec2Proof

/-! ## Theorems: Policy Violation Detector (claim C5) -/

/-- C5 (as amended): the cla2oct19 detector reports a record as a policy
violation exactly when the claimed predicate holds — manual-entry value
case-insensitively in the truthy set AND environment absent, empty, or
lacking the substring "prod" case-insensitively — and analysis_4 emits
exactly the violating records, one finding each.  (The part_000 variant
instead tests the trimmed lower-cased environment for exact membership in
the production-token set; see the counterexample.) -/
theorem policy_violation_detector_characterization :
    (∀ m env : Option String, cla2IsViolation m env = claimedViolation m env) ∧
    (∀ data : List Rec3,
      analysis4cla2 data = data.filter (fun r => cla2IsViolation r.manual r.env)) := by
  constructor
  · intro m env
    unfold cla2IsViolation claimedViolation cla2IsManual cla2IsNonProd
    cases m with
    | none =>
      cases env with
      | none => decide
      | some e =>
        simp only [pyStr]
        rw [show (["TRUE", "T", "1", "YES"].contains (pyToUpper "nan")) = false from by decide]
        simp
    | some s =>
      cases env with
      | none =>
        simp only [pyStr]
        rw [show (!(pyContains (pyToUpper "nan") "PROD")) = true from by decide]
      | some e =>
        simp only [pyStr]
        by_cases he : e = ""
        · subst he
          rw [show (!(pyContains (pyToUpper "") "PROD")) = true from by decide,
              show (("" : String) == "") = true from by decide]
          simp
        · rw [beq_eq_false_iff_ne.mpr he]
          simp
  · intro data
    exact filter_filter_comm _ _ _

/-- C5 counterexample: for a manual entry with environment "preprod" the
part_000 detector reports a violation (exact-token production test) while the
claimed substring heuristic recognizes the environment as production and
reports none. -/
theorem policy_violation_substring_counterexample :
    p0IsViolation (some "true") (some "preprod") = true ∧
    claimedViolation (some "true") (some "preprod") = false := by
  decide

end Spec2Proof

namespace Spec2Proof

/-! ## Theorems: Column Normalizer disambiguation (claim C3) -/

/-- A fold that overwrites its accumulator at every satisfying element ends at
the last satisfying element (the first one of the reversed list). -/
lemma foldl_overwrite (p : α → Bool) (l : List α) (acc : Option α) :
    l.foldl (fun a c => if p c then some c else a) acc =
      match l.reverse.find? p with
      | some c => some c
      | none => acc := by
  induction l generalizing acc with
  | nil => simp
  | cons x xs ih =>
    rw [List.foldl_cons, ih]
    rw [List.reverse_cons, List.find?_append]
    cases hfl : xs.reverse.find? p with
    | some c => simp
    | none =>
      by_cases hx : p x
      · simp [List.find?, hx]
      · simp [List.find?, hx]

/-- C3 (as amended): when candidate type columns are disambiguated, each
candidate whose CI-type content matches strictly exceed its scope-token
matches overwrites the running selection, so the LAST such candidate is the
column selected (not the highest-scoring one); when no candidate qualifies
the first candidate is used, or the literal 'Type' when there is none. -/
theorem identify_type_column_last_qualifying (table : List (String × List (Option String))) :
    (∀ c, (typeColumns table).reverse.find? (colQualifies table) = some c →
      identifyTypeColumn table = c) ∧
    ((typeColumns table).reverse.find? (colQualifies table) = none →
      identifyTypeColumn table =
        (match typeColumns table with
         | [] => "Type"
         | c :: _ => c)) := by
  constructor
  · intro c hc
    simp only [identifyTypeColumn]
    rw [foldl_overwrite, hc]
  · intro hc
    simp only [identifyTypeColumn]
    rw [foldl_overwrite, hc]
    cases typeColumns table <;> rfl

/-- C3 counterexample: two candidate columns both qualify; the first scores
2 - 0 = 2, the second 1 - 0 = 1, so the claimed positive-minus-negative rule
selects the first, but the code selects the second (the last qualifying
candidate overwrites the first). -/
theorem identify_type_column_counterexample :
    identifyTypeColumn
        [("type a", [some "Server One", some "Server Two"]), ("type b", [some "Server Z"])]
      = "type b" ∧
    claimedScore
        [("type a", [some "Server One", some "Server Two"]), ("type b", [some "Server Z"])]
        "type a" = 2 ∧
    claimedScore
        [("type a", [some "Server One", some "Server Two"]), ("type b", [some "Server Z"])]
        "type b" = 1 ∧
    claimedWinner
        [("type a", [some "Server One", some "Server Two"]), ("type b", [some "Server Z"])]
      = some "type a" := by
  decide

end Spec2Proof

namespace Spec2Proof

/-! ## Theorems: Dataset Differ symmetry (claim C6) -/

/-- C6: swapping the reference (prod) and comparison (api) datasets swaps the
missing and extra key lists exactly, keeps the common keys the same set, and
every Different value-difference finding reappears in the swapped run as a
finding for the same key and column with its reference and comparison values
exchanged. -/
theorem differ_swap_symmetry (A B : Dataset) (keyCol : String) :
    missingFromApi B A keyCol = extraInApi A B keyCol ∧
    extraInApi B A keyCol = missingFromApi A B keyCol ∧
    (∀ k, k ∈ commonKeysOf B A keyCol ↔ k ∈ commonKeysOf A B keyCol) ∧
    (∀ f ∈ valueDifferences A B keyCol, f.issue = "Different" →
      ∃ g ∈ valueDifferences B A keyCol,
        g.key = f.key ∧ g.column = f.column ∧
        g.prodValue = f.apiValue ∧ g.apiValue = f.prodValue) := by
  refine ⟨rfl, rfl, ?_, ?_⟩
  · intro k
    unfold commonKeysOf
    rw [List.mem_filter, List.mem_filter, contains_iff_mem, contains_iff_mem]
    exact and_comm
  · intro f hf _
    unfold valueDifferences at hf
    rw [List.mem_flatMap] at hf
    obtain ⟨k, hk, hf⟩ := hf
    rw [List.mem_filterMap] at hf
    obtain ⟨c, hc, hsome⟩ := hf
    unfold commonKeysOf at hk
    rw [List.mem_filter, contains_iff_mem] at hk
    unfold commonColumns at hc
    rw [List.mem_filter] at hc
    obtain ⟨hcA, hckey⟩ := hc
    rw [List.mem_filter, contains_iff_mem] at hcA
    dsimp only at hsome
    split at hsome
    case isFalse =>
      exact absurd hsome (by simp)
    case isTrue hne =>
      rw [Option.some_inj] at hsome
      subst hsome
      refine ⟨{ key := k, column := c,
                prodValue := getVal B.headers (lookupRow (create_row_dict B.headers B.rows keyCol).1 k) c,
                apiValue := getVal A.headers (lookupRow (create_row_dict A.headers A.rows keyCol).1 k) c,
                issue :=
                  if (getVal A.headers (lookupRow (create_row_dict A.headers A.rows keyCol).1 k) c == ""
                      && getVal B.headers (lookupRow (create_row_dict B.headers B.rows keyCol).1 k) c != "") = true
                  then "Missing" else "Different" },
              ?_, rfl, rfl, rfl, rfl⟩
      unfold valueDifferences
      rw [List.mem_flatMap]
      refine ⟨k, ?_, ?_⟩
      · unfold commonKeysOf
        rw [List.mem_filter, contains_iff_mem]
        exact ⟨hk.2, hk.1⟩
      · rw [List.mem_filterMap]
        refine ⟨c, ?_, ?_⟩
        · unfold commonColumns
          rw [List.mem_filter, List.mem_filter, contains_iff_mem]
          exact ⟨⟨hcA.2, hcA.1⟩, hckey⟩
        · dsimp only
          rw [if_pos, Option.some_inj]
          · exact bne_iff_ne.mpr (fun hx => bne_iff_ne.mp hne hx.symm)
  
end Spec2Proof

namespace Spec2Proof

/-! ## Theorems: Dataset Differ row dictionaries (claims C8, C9) -/

lemma if_key_fst (p : String × α) (k : String) (v : α) :
    (if p.1 == k then (p.1, v) else p).1 = p.1 := by
  by_cases h : p.1 == k <;> simp [h]

lemma upsert_map_fst (m : List (String × α)) (k : String) (v : α) :
    (m.map (fun p => if p.1 == k then (p.1, v) else p)).map (fun p => p.1) =
      m.map (fun p => p.1) := by
  induction m with
  | nil => rfl
  | cons p ps ih =>
    simp only [List.map_cons, if_key_fst, ih]

lemma find?_upsert_self (m : List (String × α)) (k : String) (v : α) :
    (upsert m k v).find? (fun p => p.1 == k) = some (k, v) := by
  unfold upsert
  by_cases hc : (m.map (fun p => p.1)).contains k
  · rw [if_pos hc]
    induction m with
    | nil => simp at hc
    | cons p ps ih =>
      by_cases hp : p.1 == k
      · rw [List.map_cons, if_pos hp, List.find?_cons_of_pos _ (by simpa using hp)]
        rw [eq_of_beq hp]
      · have hc2 : ((ps.map (fun p => p.1)).contains k) = true := by
          simp only [List.map_cons, List.contains_cons] at hc
          rcases Bool.or_eq_true_iff.mp hc with h | h
          · exact absurd (eq_of_beq h).symm (fun hx => hp (beq_iff_eq.mpr hx))
          · exact h
        rw [List.map_cons, if_neg hp, List.find?_cons_of_neg _ (by simpa using hp)]
        exact ih hc2
  · rw [if_neg hc]
    rw [List.find?_append]
    have hnone : m.find? (fun p => p.1 == k) = none := by
      rw [List.find?_eq_none]
      intro p hp hk
      exact hc ((contains_iff_mem _ _).mpr
        (List.mem_map.mpr ⟨p, hp, eq_of_beq hk⟩))
    rw [hnone]
    simp [List.find?]

lemma find?_upsert_other (m : List (String × α)) (k : String) (v : α) (j : String)
    (h : j ≠ k) :
    (upsert m k v).find? (fun p => p.1 == j) = m.find? (fun p => p.1 == j) := by
  unfold upsert
  by_cases hc : (m.map (fun p => p.1)).contains k
  · rw [if_pos hc]
    clear hc
    induction m with
    | nil => rfl
    | cons p ps ih =>
      rw [List.map_cons]
      by_cases hp : p.1 == k
      · have hpj : (p.1 == j) = false :=
          beq_eq_false_iff_ne.mpr (fun hx => h (hx.symm.trans (eq_of_beq hp)))
        rw [if_pos hp]
        simp only [List.find?_cons, hpj]
        exact ih
      · rw [if_neg hp]
        by_cases hpj : (p.1 == j) = true
        · simp only [List.find?_cons, hpj]
        · rw [Bool.not_eq_true] at hpj
          simp only [List.find?_cons, hpj]
          exact ih
  · rw [if_neg hc]
    rw [List.find?_append]
    have hone : ([(k, v)].find? (fun p => p.1 == j)) = none := by
      simp [List.find?, beq_eq_false_iff_ne.mpr (fun hx => h hx.symm)]
    rw [hone]
    cases m.find? (fun p => p.1 == j) <;> rfl

/-- The fold underlying create_row_dict keeps, per key, the last row whose
effective key matches. -/
lemma rowDictFold_find (idx : Nat) (l : List (Nat × List String))
    (acc : List (String × Nat × List String) × List (Nat × List String)) (k : String) :
    (rowDictFold idx l acc).1.find? (fun p => p.1 == k) =
      match l.reverse.find? (fun nr => effKey idx nr.2 == some k) with
      | some nr => some (k, nr)
      | none => acc.1.find? (fun p => p.1 == k) := by
  induction l generalizing acc with
  | nil => simp [rowDictFold]
  | cons nr t ih =>
    have hstep : rowDictFold idx (nr :: t) acc =
        rowDictFold idx t
          (match effKey idx nr.2 with
           | some k2 => (upsert acc.1 k2 nr, acc.2)
           | none => (acc.1, acc.2 ++ [nr])) := by
      simp [rowDictFold]
    rw [hstep, ih]
    rw [List.reverse_cons, List.find?_append]
    cases hft : t.reverse.find? (fun nr2 => effKey idx nr2.2 == some k) with
    | some nr2 => rfl
    | none =>
      cases hek : effKey idx nr.2 with
      | some k2 =>
        by_cases hkk : k2 = k
        · subst hkk
          have hq : (effKey idx nr.2 == some k2) = true := by
            rw [hek]
            exact beq_self_eq_true _
          simp only [List.find?_cons, hq]
          exact find?_upsert_self acc.1 k2 nr
        · have hq : (effKey idx nr.2 == some k) = false := by
            rw [hek]
            simpa using hkk
          simp only [List.find?_cons, hq, List.find?_nil]
          exact find?_upsert_other acc.1 k2 nr k (fun hx => hkk hx.symm)
      | none =>
        have hq : (effKey idx nr.2 == some k) = false := by
          rw [hek]
          rfl
        simp only [List.find?_cons, hq, List.find?_nil]
        rfl

/-- The anomaly list of the fold: exactly the incoming rows without an
effective key, appended in order. -/
lemma rowDictFold_anomalies (idx : Nat) (l : List (Nat × List String))
    (acc : List (String × Nat × List String) × List (Nat × List String)) :
    (rowDictFold idx l acc).2 =
      acc.2 ++ l.filter (fun nr => (effKey idx nr.2).isNone) := by
  induction l generalizing acc with
  | nil => simp [rowDictFold]
  | cons nr t ih =>
    have hstep : rowDictFold idx (nr :: t) acc =
        rowDictFold idx t
          (match effKey idx nr.2 with
           | some k2 => (upsert acc.1 k2 nr, acc.2)
           | none => (acc.1, acc.2 ++ [nr])) := by
      simp [rowDictFold]
    rw [hstep, ih]
    cases hek : effKey idx nr.2 with
    | some k2 =>
      rw [List.filter_cons_of_neg (by rw [hek]; simp)]
    | none =>
      rw [List.filter_cons_of_pos (by rw [hek]; rfl), List.append_assoc]
      rfl

lemma mem_upsert_key (m : List (String × α)) (k : String) (v : α) (q : String × α)
    (h : q ∈ upsert m k v) : q.1 = k ∨ q.1 ∈ m.map (fun p => p.1) := by
  unfold upsert at h
  by_cases hc : (m.map (fun p => p.1)).contains k
  · rw [if_pos hc] at h
    rw [List.mem_map] at h
    obtain ⟨p, hp, hq⟩ := h
    right
    rw [← hq, if_key_fst]
    exact List.mem_map.mpr ⟨p, hp, rfl⟩
  · rw [if_neg hc, List.mem_append] at h
    rcases h with h | h
    · exact Or.inr (List.mem_map.mpr ⟨q, h, rfl⟩)
    · left
      rcases List.mem_singleton.mp h with rfl
      rfl

/-- Keys of the fold's dict come from the accumulator or from rows with an
effective key. -/
lemma rowDictFold_keys (idx : Nat) (l : List (Nat × List String))
    (acc : List (String × Nat × List String) × List (Nat × List String))
    (q : String × Nat × List String) (h : q ∈ (rowDictFold idx l acc).1) :
    q.1 ∈ acc.1.map (fun p => p.1) ∨ ∃ nr ∈ l, effKey idx nr.2 = some q.1 := by
  induction l generalizing acc with
  | nil =>
    left
    exact List.mem_map.mpr ⟨q, by simpa [rowDictFold] using h, rfl⟩
  | cons nr t ih =>
    have hstep : rowDictFold idx (nr :: t) acc =
        rowDictFold idx t
          (match effKey idx nr.2 with
           | some k2 => (upsert acc.1 k2 nr, acc.2)
           | none => (acc.1, acc.2 ++ [nr])) := by
      simp [rowDictFold]
    rw [hstep] at h
    cases hek : effKey idx nr.2 with
    | some k2 =>
      rw [hek] at h
      rcases ih _ h with hacc | ⟨nr2, hnr2, hk2⟩
      · rw [List.mem_map] at hacc
        obtain ⟨p, hp, hq⟩ := hacc
        rcases mem_upsert_key acc.1 k2 nr p hp with hpk | hpm
        · right
          exact ⟨nr, List.mem_cons_self _ _, by rw [hek, ← hq, hpk]⟩
        · left
          rw [← hq]
          exact hpm
      · exact Or.inr ⟨nr2, List.mem_cons_of_mem _ hnr2, hk2⟩
    | none =>
      rw [hek] at h
      rcases ih _ h with hacc | ⟨nr2, hnr2, hk2⟩
      · exact Or.inl hacc
      · exact Or.inr ⟨nr2, List.mem_cons_of_mem _ hnr2, hk2⟩

lemma effKey_some_ne_empty (idx : Nat) (row : List String) (k : String)
    (h : effKey idx row = some k) : k ≠ "" := by
  unfold effKey at h
  split at h
  · dsimp only at h
    split at h
    · exact absurd h (by simp)
    · rename_i hv
      rw [Option.some_inj] at h
      subst h
      intro hx
      rw [hx] at hv
      simp at hv
  · exact absurd h (by simp)

end Spec2Proof

namespace Spec2Proof

lemma keys_map_proj (m : List (String × Nat × List String)) :
    (m.map (fun p => ((p.1, p.2.2) : String × List String))).map (fun p => p.1) =
      m.map (fun p => p.1) := by
  induction m with
  | nil => rfl
  | cons p ps ih => simp [ih]

lemma map_proj_overwrite (m : List (String × Nat × List String)) (k : String)
    (v : Nat × List String) :
    (m.map (fun p => if p.1 == k then (p.1, v) else p)).map
        (fun p => ((p.1, p.2.2) : String × List String)) =
      (m.map (fun p => ((p.1, p.2.2) : String × List String))).map
        (fun p => if p.1 == k then (p.1, v.2) else p) := by
  induction m with
  | nil => rfl
  | cons p ps ih =>
    simp only [List.map_cons, ih]
    congr 1
    by_cases hp : (p.1 == k) = true <;> simp [hp]

lemma upsert_map_proj (m : List (String × Nat × List String)) (k : String)
    (v : Nat × List String) :
    (upsert m k v).map (fun p => ((p.1, p.2.2) : String × List String)) =
      upsert (m.map (fun p => ((p.1, p.2.2) : String × List String))) k v.2 := by
  unfold upsert
  rw [keys_map_proj]
  by_cases hc : (m.map (fun p => p.1)).contains k
  · rw [if_pos hc, if_pos hc]
    exact map_proj_overwrite m k v
  · rw [if_neg hc, if_neg hc, List.map_append]
    rfl

/-- The v2 create_row_dict fold is the projection (dropping row numbers) of
the tracking fold's dict. -/
lemma v2_eq_proj_fold (idx : Nat) (l : List (Nat × List String))
    (d : List (String × Nat × List String)) (e : List (Nat × List String)) :
    (l.map (fun nr => nr.2)).foldl
        (fun m row =>
          match effKey idx row with
          | some k => upsert m k row
          | none => m)
        (d.map (fun p => ((p.1, p.2.2) : String × List String))) =
      (rowDictFold idx l (d, e)).1.map (fun p => ((p.1, p.2.2) : String × List String)) := by
  induction l generalizing d e with
  | nil => simp [rowDictFold]
  | cons nr t ih =>
    rw [List.map_cons, List.foldl_cons]
    have hstep : rowDictFold idx (nr :: t) (d, e) =
        rowDictFold idx t
          (match effKey idx nr.2 with
           | some k2 => (upsert d k2 nr, e)
           | none => (d, e ++ [nr])) := by
      simp [rowDictFold]
    rw [hstep]
    cases hek : effKey idx nr.2 with
    | some k2 =>
      dsimp only
      rw [← upsert_map_proj]
      exact ih (upsert d k2 nr) e
    | none =>
      dsimp only
      exact ih d (e ++ [nr])

lemma create_row_dict_v2_eq (headers : List String) (rows : List (List String))
    (keyCol : String) :
    create_row_dict_v2 headers rows keyCol =
      (create_row_dict headers rows keyCol).1.map
        (fun p => ((p.1, p.2.2) : String × List String)) := by
  unfold create_row_dict_v2 create_row_dict
  have h := v2_eq_proj_fold (pyIndex keyCol headers) (List.enumFrom 2 rows) [] []
  rw [show (List.enumFrom 2 rows).map (fun nr => nr.2) = rows from by
    simp] at h
  exact h

end Spec2Proof

namespace Spec2Proof

/-- C8 (as amended): in the PROD-vs-API differ's create_row_dict, every input
row whose key is empty or absent is appended to the separately returned
rows_with_empty_keys collection (exactly those rows, in order), contributes
no key to the row dict — in particular the empty string is never a key — so
it joins no key-based comparison; the v2 csv-columns variant instead returns
only the dict, whose keys likewise come only from rows with an effective key,
so its empty-key rows are dropped without being tracked anywhere. -/
theorem empty_key_rows_tracked (headers : List String) (rows : List (List String))
    (keyCol : String) :
    (create_row_dict headers rows keyCol).2 =
      (List.enumFrom 2 rows).filter
        (fun nr => (effKey (pyIndex keyCol headers) nr.2).isNone) ∧
    (∀ p ∈ (create_row_dict headers rows keyCol).1,
      ∃ nr ∈ List.enumFrom 2 rows, effKey (pyIndex keyCol headers) nr.2 = some p.1) ∧
    (∀ p ∈ (create_row_dict headers rows keyCol).1, p.1 ≠ "") ∧
    (∀ p ∈ create_row_dict_v2 headers rows keyCol,
      ∃ row ∈ rows, effKey (pyIndex keyCol headers) row = some p.1) := by
  have hprov : ∀ p ∈ (create_row_dict headers rows keyCol).1,
      ∃ nr ∈ List.enumFrom 2 rows, effKey (pyIndex keyCol headers) nr.2 = some p.1 := by
    intro p hp
    rcases rowDictFold_keys _ _ _ _ hp with hacc | h
    · simp at hacc
    · exact h
  refine ⟨?_, hprov, ?_, ?_⟩
  · have h := rowDictFold_anomalies (pyIndex keyCol headers) (List.enumFrom 2 rows) ([], [])
    simp only [List.nil_append] at h
    exact h
  · intro p hp
    obtain ⟨nr, _, hk⟩ := hprov p hp
    exact effKey_some_ne_empty _ _ _ hk
  · intro p hp
    rw [create_row_dict_v2_eq, List.mem_map] at hp
    obtain ⟨q, hq, hpq⟩ := hp
    obtain ⟨nr, hnr, hk⟩ := hprov q hq
    refine ⟨nr.2, ?_, ?_⟩
    · rw [show rows = (List.enumFrom 2 rows).map (fun nr => nr.2) from by
        simp]
      exact List.mem_map.mpr ⟨nr, hnr, rfl⟩
    · rw [hk, ← hpq]

/-- C8 counterexample: a row whose key cell is blank after trimming: the
PROD-vs-API create_row_dict returns it in the tracked empty-key collection,
but the v2 variant returns the empty dict — the row is gone from the only
value the function returns. -/
theorem empty_key_silent_drop_counterexample :
    create_row_dict_v2 ["id", "v"] [[" ", "a"]] "id" = [] ∧
    (create_row_dict ["id", "v"] [[" ", "a"]] "id").1 = [] ∧
    (create_row_dict ["id", "v"] [[" ", "a"]] "id").2 = [(2, [" ", "a"])] := by
  decide

/-- C9: for every dataset, the row dict maps each key to the LAST input row
whose effective (trimmed, non-empty) key equals it — each later occurrence
overwrites the earlier entry — and the v2 variant's dict is exactly the same
dict without the row numbers, so every value comparison and reported row for
a duplicated key comes from the last occurrence while earlier occurrences are
discarded. -/
theorem row_dict_keeps_last_occurrence (headers : List String)
    (rows : List (List String)) (keyCol k : String) :
    (create_row_dict headers rows keyCol).1.find? (fun p => p.1 == k) =
      (match (List.enumFrom 2 rows).reverse.find?
          (fun nr => effKey (pyIndex keyCol headers) nr.2 == some k) with
       | some nr => some (k, nr)
       | none => none) ∧
    create_row_dict_v2 headers rows keyCol =
      (create_row_dict headers rows keyCol).1.map
        (fun p => ((p.1, p.2.2) : String × List String)) := by
  constructor
  · have h := rowDictFold_find (pyIndex keyCol headers) (List.enumFrom 2 rows) ([], []) k
    simp only [List.find?_nil] at h
    exact h
  · exact create_row_dict_v2_eq headers rows keyCol

end Spec2Proof

namespace Spec2Proof

/-! ## Theorems: Name Decomposer (claim C1) -/

lemma dropWhile_idem (p : α → Bool) (l : List α) :
    (l.dropWhile p).dropWhile p = l.dropWhile p := by
  induction l with
  | nil => rfl
  | cons x xs ih =>
    rw [List.dropWhile_cons]
    by_cases hx : p x = true
    · rw [if_pos hx]
      exact ih
    · rw [if_neg hx, List.dropWhile_cons, if_neg hx]

lemma mem_dropWhile_of (p : α → Bool) (l : List α) (c : α) (hc : p c = false)
    (h : c ∈ l) : c ∈ l.dropWhile p := by
  induction l with
  | nil => simp at h
  | cons x xs ih =>
    rw [List.dropWhile_cons]
    by_cases hx : p x = true
    · rw [if_pos hx]
      rcases List.mem_cons.mp h with rfl | h2
      · rw [hx] at hc
        cases hc
      · exact ih h2
    · rw [if_neg hx]
      exact h

lemma mem_lstrip_iff (c : Char) (hc : Char.isWhitespace c = false) (l : List Char) :
    c ∈ lstripList l ↔ c ∈ l := by
  constructor
  · exact fun h => (List.dropWhile_sublist Char.isWhitespace).subset h
  · exact mem_dropWhile_of _ _ _ hc

lemma mem_rstrip_iff (c : Char) (hc : Char.isWhitespace c = false) (l : List Char) :
    c ∈ rstripList l ↔ c ∈ l := by
  unfold rstripList
  rw [List.mem_reverse]
  have h := mem_lstrip_iff c hc l.reverse
  unfold lstripList at h
  rw [h, List.mem_reverse]

lemma mem_strip_iff (c : Char) (hc : Char.isWhitespace c = false) (l : List Char) :
    c ∈ stripList l ↔ c ∈ l := by
  unfold stripList
  rw [mem_rstrip_iff c hc, mem_lstrip_iff c hc]

lemma containsList_singleton (c : Char) (l : List Char) :
    containsList l [c] = true ↔ c ∈ l := by
  induction l with
  | nil =>
    unfold containsList
    simp [List.tails, List.isPrefixOf]
  | cons x xs ih =>
    unfold containsList at ih ⊢
    rw [List.tails_cons, List.any_cons]
    rw [Bool.or_eq_true_iff, ih, List.mem_cons]
    constructor
    · rintro (h | h)
      · left
        simp [List.isPrefixOf] at h
        exact h
      · exact Or.inr h
    · rintro (rfl | h)
      · left
        simp [List.isPrefixOf]
      · exact Or.inr h

lemma pyContains_colon_iff (s : String) :
    pyContains s ":" = true ↔ ':' ∈ s.toList :=
  containsList_singleton ':' s.toList

lemma rstrip_eq_nil_iff (l : List Char) :
    rstripList l = [] ↔ ∀ c ∈ l, Char.isWhitespace c = true := by
  unfold rstripList
  rw [List.reverse_eq_nil_iff, List.dropWhile_eq_nil_iff]
  constructor
  · intro h c hc
    exact h c (List.mem_reverse.mpr hc)
  · intro h c hc
    exact h c (List.mem_reverse.mp hc)

lemma rstrip_cons_of_ne_nil (x : Char) (t : List Char) (h : rstripList t ≠ []) :
    rstripList (x :: t) = x :: rstripList t := by
  unfold rstripList at h ⊢
  rw [List.reverse_cons, List.dropWhile_append]
  have h2 : (t.reverse.dropWhile Char.isWhitespace).isEmpty = false := by
    by_contra hx
    rw [Bool.not_eq_false, List.isEmpty_iff] at hx
    exact h (by rw [hx]; rfl)
  rw [h2]
  simp

lemma rstrip_cons_of_not_ws (x : Char) (t : List Char)
    (hx : Char.isWhitespace x = false) :
    rstripList (x :: t) = x :: rstripList t := by
  by_cases h : rstripList t = []
  · unfold rstripList at h ⊢
    rw [List.reverse_cons, List.dropWhile_append]
    rw [List.reverse_eq_nil_iff] at h
    rw [show (t.reverse.dropWhile Char.isWhitespace).isEmpty = true from by
      rw [List.isEmpty_iff]; exact h]
    simp [List.dropWhile_cons, hx, h]
  · exact rstrip_cons_of_ne_nil x t h

lemma rstrip_cons_nil (x : Char) (t : List Char) (h : rstripList t = [])
    (hx : Char.isWhitespace x = true) : rstripList (x :: t) = [] := by
  unfold rstripList at h ⊢
  rw [List.reverse_cons, List.dropWhile_append]
  rw [List.reverse_eq_nil_iff] at h
  rw [show (t.reverse.dropWhile Char.isWhitespace).isEmpty = true from by
    rw [List.isEmpty_iff]; exact h]
  simp [List.dropWhile_cons, hx]

lemma lstrip_rstrip_comm (l : List Char) :
    lstripList (rstripList l) = rstripList (lstripList l) := by
  induction l with
  | nil => rfl
  | cons x t ih =>
    by_cases hw : Char.isWhitespace x = true
    · by_cases h0 : rstripList t = []
      · rw [rstrip_cons_nil x t h0 hw]
        have hl : lstripList (x :: t) = lstripList t := by
          unfold lstripList
          simp [List.dropWhile_cons, hw]
        rw [hl]
        have : rstripList (lstripList t) = [] := by
          rw [rstrip_eq_nil_iff]
          intro c hc
          exact (rstrip_eq_nil_iff t).mp h0 c
            ((List.dropWhile_sublist Char.isWhitespace).subset hc)
        rw [this]
        rfl
      · rw [rstrip_cons_of_ne_nil x t h0]
        have hl1 : lstripList (x :: rstripList t) = lstripList (rstripList t) := by
          unfold lstripList
          simp [List.dropWhile_cons, hw]
        have hl2 : lstripList (x :: t) = lstripList t := by
          unfold lstripList
          simp [List.dropWhile_cons, hw]
        rw [hl1, hl2, ih]
    · rw [Bool.not_eq_true] at hw
      rw [rstrip_cons_of_not_ws x t hw]
      have hl1 : lstripList (x :: rstripList t) = x :: rstripList t := by
        unfold lstripList
        simp [List.dropWhile_cons, hw]
      have hl2 : lstripList (x :: t) = x :: t := by
        unfold lstripList
        simp [List.dropWhile_cons, hw]
      rw [hl1, hl2, rstrip_cons_of_not_ws x t hw]

lemma rstrip_idem (l : List Char) : rstripList (rstripList l) = rstripList l := by
  unfold rstripList
  rw [List.reverse_reverse, dropWhile_idem]

lemma lstrip_idem (l : List Char) : lstripList (lstripList l) = lstripList l :=
  dropWhile_idem _ l

lemma strip_lstrip (l : List Char) : stripList (lstripList l) = stripList l := by
  unfold stripList
  rw [lstrip_idem]

lemma strip_rstrip (l : List Char) : stripList (rstripList l) = stripList l := by
  unfold stripList
  rw [lstrip_rstrip_comm, rstrip_idem]

end Spec2Proof

namespace Spec2Proof

/-- The cons equation of breakAt in rewrite-friendly form. -/
lemma breakAt_cons (sep x : Char) (xs : List Char) :
    breakAt sep (x :: xs) =
      if x = sep then ([], xs)
      else (x :: (breakAt sep xs).1, (breakAt sep xs).2) := by
  rw [breakAt]

/-- Left-stripping before splitting at a present non-whitespace separator
only left-strips the first part. -/
lemma breakAt_lstrip (sep : Char) (hsep : Char.isWhitespace sep = false)
    (l : List Char) (h : sep ∈ l) :
    breakAt sep (lstripList l) = (lstripList (breakAt sep l).1, (breakAt sep l).2) := by
  induction l with
  | nil => simp at h
  | cons x xs ih =>
    by_cases hx : x = sep
    · subst hx
      have hl : lstripList (x :: xs) = x :: xs := by
        unfold lstripList
        simp [List.dropWhile_cons, hsep]
      rw [hl, breakAt_cons, if_pos rfl]
      rfl
    · by_cases hw : Char.isWhitespace x = true
      · have hmem : sep ∈ xs := by
          rcases List.mem_cons.mp h with h2 | h2
          · exact absurd h2.symm hx
          · exact h2
        have hl : lstripList (x :: xs) = lstripList xs := by
          unfold lstripList
          simp [List.dropWhile_cons, hw]
        have hfst : lstripList (x :: (breakAt sep xs).1)
            = lstripList (breakAt sep xs).1 := by
          unfold lstripList
          simp [List.dropWhile_cons, hw]
        rw [hl, ih hmem, breakAt_cons, if_neg hx, hfst]
      · rw [Bool.not_eq_true] at hw
        have hl : lstripList (x :: xs) = x :: xs := by
          unfold lstripList
          simp [List.dropWhile_cons, hw]
        have hfst : lstripList (x :: (breakAt sep xs).1)
            = x :: (breakAt sep xs).1 := by
          unfold lstripList
          simp [List.dropWhile_cons, hw]
        rw [hl, breakAt_cons, if_neg hx]
        dsimp only
        rw [hfst]

/-- Right-stripping before splitting at a present non-whitespace separator
only right-strips the second part. -/
lemma breakAt_rstrip (sep : Char) (hsep : Char.isWhitespace sep = false)
    (l : List Char) (h : sep ∈ l) :
    breakAt sep (rstripList l) = ((breakAt sep l).1, rstripList (breakAt sep l).2) := by
  induction l with
  | nil => simp at h
  | cons x xs ih =>
    by_cases hx : x = sep
    · subst hx
      rw [rstrip_cons_of_not_ws x xs hsep, breakAt_cons, if_pos rfl,
          breakAt_cons, if_pos rfl]
    · have hmem : sep ∈ xs := by
        rcases List.mem_cons.mp h with h2 | h2
        · exact absurd h2.symm hx
        · exact h2
      have hne : rstripList xs ≠ [] := by
        intro h0
        have hws := (rstrip_eq_nil_iff xs).mp h0 sep hmem
        rw [hws] at hsep
        cases hsep
      rw [rstrip_cons_of_ne_nil x xs hne, breakAt_cons, if_neg hx, ih hmem,
          breakAt_cons, if_neg hx]

/-- Splitting the stripped string at a present non-whitespace separator and
stripping the parts gives the same parts as splitting the raw string and
stripping them. -/
lemma strip_breakAt_strip (sep : Char) (hsep : Char.isWhitespace sep = false)
    (l : List Char) (h : sep ∈ l) :
    stripList (breakAt sep (stripList l)).1 = stripList (breakAt sep l).1 ∧
    stripList (breakAt sep (stripList l)).2 = stripList (breakAt sep l).2 := by
  have hmeml : sep ∈ lstripList l := (mem_lstrip_iff sep hsep l).mpr h
  have hb : breakAt sep (stripList l) =
      (lstripList (breakAt sep l).1, rstripList (breakAt sep l).2) := by
    unfold stripList
    rw [breakAt_rstrip sep hsep (lstripList l) hmeml, breakAt_lstrip sep hsep l h]
  rw [hb]
  exact ⟨strip_lstrip _, strip_rstrip _⟩

lemma splitAllAux_ne_nil (sep : Char) (l acc : List Char) :
    splitAllAux sep l acc ≠ [] := by
  induction l generalizing acc with
  | nil => simp [splitAllAux]
  | cons c cs ih =>
    unfold splitAllAux
    by_cases hc : c = sep
    · rw [if_pos hc]
      simp
    · rw [if_neg hc]
      exact ih _

/-- Joining a full split with its separator restores the input (after the
collected reversed prefix). -/
lemma joinSep_splitAllAux (sep : Char) (l acc : List Char) :
    joinSep sep (splitAllAux sep l acc) = acc.reverse ++ l := by
  induction l generalizing acc with
  | nil => simp [splitAllAux, joinSep]
  | cons c cs ih =>
    unfold splitAllAux
    by_cases hc : c = sep
    · subst hc
      rw [if_pos rfl]
      obtain ⟨r, rs, hr⟩ := List.exists_cons_of_ne_nil (splitAllAux_ne_nil c cs [])
      rw [hr]
      show acc.reverse ++ c :: joinSep c (r :: rs) = acc.reverse ++ c :: cs
      rw [← hr, ih]
      rfl
    · rw [if_neg hc, ih]
      simp

/-- The first part of a full split is the text before the first separator. -/
lemma splitAllAux_headD (sep : Char) (l acc : List Char) :
    (splitAllAux sep l acc).headD [] = acc.reverse ++ (breakAt sep l).1 := by
  induction l generalizing acc with
  | nil => simp [splitAllAux, breakAt]
  | cons c cs ih =>
    unfold splitAllAux
    by_cases hc : c = sep
    · subst hc
      rw [if_pos rfl, breakAt_cons, if_pos rfl]
      simp
    · rw [if_neg hc, ih, breakAt_cons, if_neg hc]
      simp

/-- With no separator present the full split is one part: the whole input. -/
lemma splitAllAux_of_not_mem (sep : Char) (l acc : List Char) (h : sep ∉ l) :
    splitAllAux sep l acc = [acc.reverse ++ l] := by
  induction l generalizing acc with
  | nil => simp [splitAllAux]
  | cons c cs ih =>
    unfold splitAllAux
    have hc : ¬(c = sep) := fun hx => h (hx ▸ List.mem_cons_self _ _)
    rw [if_neg hc, ih _ (fun hx => h (List.mem_cons_of_mem _ hx))]
    simp

/-- Rejoining all parts after the first gives the text after the first
separator, when one is present. -/
lemma joinSep_drop_one (sep : Char) (l : List Char) (h : sep ∈ l) (acc : List Char) :
    joinSep sep ((splitAllAux sep l acc).drop 1) = (breakAt sep l).2 := by
  induction l generalizing acc with
  | nil => simp at h
  | cons c cs ih =>
    unfold splitAllAux
    by_cases hc : c = sep
    · subst hc
      rw [if_pos rfl, breakAt_cons, if_pos rfl]
      show joinSep c (splitAllAux c cs []) = cs
      rw [joinSep_splitAllAux]
      rfl
    · have hmem : sep ∈ cs := by
        rcases List.mem_cons.mp h with h2 | h2
        · exact absurd h2.symm hc
        · exact h2
      rw [if_neg hc, breakAt_cons, if_neg hc]
      dsimp only
      exact ih hmem _

end Spec2Proof

namespace Spec2Proof

/-- C1 (as amended): the part_000 Name Decomposer satisfies the full claimed
contract — null maps to (None, None); a name containing the separator ':'
splits on its first occurrence with both parts trimmed; a name without the
separator yields (None, name trimmed).  The cla3oct19 vectorized variant
returns the name UNTRIMMED (with None prefix) when no separator is present.
The p.py variant produces no optional prefix: with a separator it returns the
same trimmed first-split parts as plain strings, without one it returns the
whole trimmed name as the prefix and an empty core, and a null name is
stringified to "nan" first, yielding ("nan", ""). -/
theorem name_decomposer_contract :
    (extract_device_info none = (none, none)) ∧
    (∀ s : String, pyContains s ":" = true →
      extract_device_info (some s) =
        (some (pyStrip (pySplit1 ':' s).1), some (pyStrip (pySplit1 ':' s).2))) ∧
    (∀ s : String, pyContains s ":" = false →
      extract_device_info (some s) = (none, some (pyStrip s))) ∧
    (∀ s : String, pyContains s ":" = false →
      extractDeviceInfoCla3 s = (none, s)) ∧
    (∀ s : String, pyContains s ":" = true →
      extractDeviceInfoP (some s) =
        (pyStrip (pySplit1 ':' s).1, pyStrip (pySplit1 ':' s).2)) ∧
    (∀ s : String, pyContains s ":" = false →
      extractDeviceInfoP (some s) = (pyStrip s, "")) ∧
    extractDeviceInfoP none = ("nan", "") := by
  have hsep : Char.isWhitespace ':' = false := by decide
  refine ⟨rfl, ?_, ?_, ?_, ?_, ?_, by decide⟩
  · intro s hcol
    have hmem : ':' ∈ s.toList := (pyContains_colon_iff s).mp hcol
    have hmem2 : ':' ∈ stripList s.toList := (mem_strip_iff ':' hsep s.toList).mpr hmem
    have hcol2 : pyContains (pyStrip s) ":" = true :=
      (containsList_singleton ':' (stripList s.toList)).mpr hmem2
    have hsplit := strip_breakAt_strip ':' hsep s.toList hmem
    have h1 : pyStrip (pySplit1 ':' (pyStrip s)).1 = pyStrip (pySplit1 ':' s).1 := by
      show String.mk (stripList (breakAt ':' (stripList s.toList)).1)
        = String.mk (stripList (breakAt ':' s.toList).1)
      rw [hsplit.1]
    have h2 : pyStrip (pySplit1 ':' (pyStrip s)).2 = pyStrip (pySplit1 ':' s).2 := by
      show String.mk (stripList (breakAt ':' (stripList s.toList)).2)
        = String.mk (stripList (breakAt ':' s.toList).2)
      rw [hsplit.2]
    simp only [extract_device_info]
    rw [if_pos hcol2, h1, h2]
  · intro s hcol
    have hncol : pyContains (pyStrip s) ":" = false := by
      by_contra hx
      rw [Bool.not_eq_false] at hx
      have hmem := (containsList_singleton ':' (stripList s.toList)).mp hx
      have hmem2 := (mem_strip_iff ':' hsep s.toList).mp hmem
      rw [(pyContains_colon_iff s).mpr hmem2] at hcol
      cases hcol
    simp only [extract_device_info]
    rw [if_neg (by simp [hncol])]
  · intro s hcol
    unfold extractDeviceInfoCla3
    rw [if_neg (by simp [hcol])]
  · intro s hcol
    have hmem : ':' ∈ s.toList := (pyContains_colon_iff s).mp hcol
    simp only [extractDeviceInfoP, pyStr]
    rw [splitAllAux_headD, joinSep_drop_one ':' s.toList hmem []]
    rfl
  · intro s hcol
    have hnmem : ':' ∉ s.toList := fun hx => by
      rw [(pyContains_colon_iff s).mpr hx] at hcol
      cases hcol
    simp only [extractDeviceInfoP, pyStr]
    rw [splitAllAux_of_not_mem ':' s.toList [] hnmem]
    rfl

/-- Witness for C1: a padded legacy name is split at the colon and trimmed. -/
theorem name_decomposer_contract_witness :
    extract_device_info (some " DB : srv1 ") = (some "DB", some "srv1") := by
  rw [name_decomposer_contract.2.1 " DB : srv1 " (by decide)]
  decide

/-- C1 counterexample: on a padded name without a separator, the cla3oct19
variant returns the raw name, not the trimmed one the claim requires; the
p.py variant returns the whole trimmed name as the PREFIX with an empty core
instead of (None, trimmed name), and maps a null name to ("nan", "") instead
of (None, None). -/
theorem name_decomposer_untrimmed_counterexample :
    extractDeviceInfoCla3 " srv1 " = (none, " srv1 ") ∧
    pyStrip " srv1 " = "srv1" ∧ (" srv1 " : String) ≠ "srv1" ∧
    extractDeviceInfoP (some " srv1 ") = ("srv1", "") ∧
    extractDeviceInfoP none = ("nan", "") := by
  decide

end Spec2Proof
